import Mathlib

/-!
Verification of the numerical notebooks of the Practical-ML-DS repository.

The Python/numpy code is shallowly embedded over exact real arithmetic:
a dense 2-D `float` array becomes a structure holding its shape and a total
entry function (only indices within the shape are meaningful), `np.exp` and
`np.log` become `Real.exp` and `Real.log`, and row reductions (`sum`, `max`
along `axis=1`) become `Finset` sums and list folds over the column range.
Fallible numpy operations (shape-mismatching broadcasts, which raise) are
modelled with `Option`.
-/

namespace MLDS

/-- A numpy-style dense 2-D array: an explicit shape together with a total
entry function.  Only entries `i < rows`, `j < cols` are meaningful; numpy
operations are translated entrywise on that rectangle. -/
@[ext]
structure NArr where
  rows : ℕ
  cols : ℕ
  entry : ℕ → ℕ → ℝ

/-- numpy broadcast of a scalar addition `x + c`. -/
def NArr.addConst (x : NArr) (c : ℝ) : NArr :=
  ⟨x.rows, x.cols, fun i j => x.entry i j + c⟩

/-- Row maximum `np.max(x, axis=1)` at row `i`.  numpy requires a
nonempty axis; for `cols ≥ 1` this fold (seeded with the first row entry,
which the fold also visits) is exactly the row maximum. -/
def rowMax (x : NArr) (i : ℕ) : ℝ :=
  ((List.range x.cols).map (x.entry i)).foldr max (x.entry i 0)

/-- The notebook's first (naive) softmax:
`e = np.exp(x); return e / e.sum(axis=1).reshape(-1, 1)`. -/
noncomputable def softmaxNaive (x : NArr) : NArr :=
  ⟨x.rows, x.cols, fun i j =>
    Real.exp (x.entry i j) / ∑ k ∈ Finset.range x.cols, Real.exp (x.entry i k)⟩

/-- The notebook's stable softmax (the redefinition used from then on):
`exps = np.exp(logits - np.max(logits, axis=1).reshape(-1, 1));
 return exps / np.sum(exps, axis=1).reshape(-1, 1)`. -/
noncomputable def softmax (x : NArr) : NArr :=
  ⟨x.rows, x.cols, fun i j =>
    Real.exp (x.entry i j - rowMax x i) /
      ∑ k ∈ Finset.range x.cols, Real.exp (x.entry i k - rowMax x i)⟩

/-- Shifting every logit of a row by the same constant does not change any
softmax quotient: the factor `exp c` cancels between numerator and row sum. -/
theorem exp_div_sum_shift (n : ℕ) (f : ℕ → ℝ) (c : ℝ) (j : ℕ) :
    Real.exp (f j + c) / ∑ k ∈ Finset.range n, Real.exp (f k + c) =
      Real.exp (f j) / ∑ k ∈ Finset.range n, Real.exp (f k) := by
  simp only [Real.exp_add]
  rw [← Finset.sum_mul]
  exact mul_div_mul_right _ _ (Real.exp_ne_zero c)

/-- The stable softmax agrees with the naive one entrywise: subtracting any
per-row constant before exponentiating cancels out of the quotient. -/
theorem softmax_eq_softmaxNaive (x : NArr) : softmax x = softmaxNaive x := by
  ext i j
  · rfl
  · rfl
  · simp only [softmax, softmaxNaive, sub_eq_add_neg]
    exact exp_div_sum_shift x.cols (x.entry i) (-(rowMax x i)) j

/-- Adding a scalar to an array shifts its row maxima by that scalar. -/
theorem rowMax_addConst (x : NArr) (c : ℝ) (i : ℕ) :
    rowMax (x.addConst c) i = rowMax x i + c := by
  unfold rowMax NArr.addConst
  simp only
  induction (List.range x.cols) with
  | nil => simp
  | cons a l ih => simp [ih, max_add_add_right]

/-- C1.  Softmax shift invariance: for every real matrix `x` and scalar `c`,
`softmax(x + c) = softmax(x)`, both for the naive softmax and for the
max-subtracting stable softmax of the notebook. -/
theorem softmax_shift_invariant (x : NArr) (c : ℝ) :
    softmaxNaive (x.addConst c) = softmaxNaive x ∧
      softmax (x.addConst c) = softmax x := by
  have hnaive : softmaxNaive (x.addConst c) = softmaxNaive x := by
    ext i j
    · rfl
    · rfl
    · simp only [softmaxNaive, NArr.addConst]
      exact exp_div_sum_shift x.cols (x.entry i) c j
  refine ⟨hnaive, ?_⟩
  rw [softmax_eq_softmaxNaive, softmax_eq_softmaxNaive]
  exact hnaive

/-- C4.  The stable softmax that subtracts the per-row maximum before
exponentiating is extensionally equal, over exact real arithmetic, to the
naive softmax `exp(x) / sum(exp(x))` along axis 1, for every input. -/
theorem stable_softmax_refines_naive (x : NArr) : softmax x = softmaxNaive x :=
  softmax_eq_softmaxNaive x

/-- The maximum `np.max` of a 1-D nonnegative integer array, as the notebook uses it to
infer the one-hot width.  numpy raises on an empty array; for a nonempty list
this fold is the true maximum. -/
def npMax (labels : List ℕ) : ℕ := labels.foldr max 0

/-- The notebook's `to_one_hot(labels, max_labels)`: `np.eye(max_labels)[labels]`,
the `(len(labels), max_labels)` array whose row `i` is the indicator of
`labels[i]`.  The default width `max_labels = np.max(labels) + 1` is passed
explicitly by callers.  (`np.eye(m)[l]` demands `l < m`; every use below
satisfies it.) -/
def to_one_hot (labels : List ℕ) (max_labels : ℕ) : NArr :=
  ⟨labels.length, max_labels, fun i j => if labels.getD i 0 = j then 1 else 0⟩

/-- The index `np.argmax` over `r 0, …, r (n-1)`: the first index attaining the row
maximum, scanning left to right and replacing the best index only on a
strictly larger value. -/
noncomputable def argmaxFrom (r : ℕ → ℝ) (n : ℕ) : ℕ :=
  (List.range n).foldl (fun best j => if r j > r best then j else best) 0

/-- The notebook's `to_labels(one_hot)`: `np.argmax(one_hot, axis=-1)`,
row by row. -/
noncomputable def to_labels (one_hot : NArr) : ℕ → ℕ :=
  fun i => argmaxFrom (one_hot.entry i) one_hot.cols

/-- On an indicator row, the left-to-right argmax scan finds the hot index as
soon as the scanned range covers it, and reports index 0 before that. -/
theorem argmaxFrom_indicator (t : ℕ) (r : ℕ → ℝ)
    (hr : ∀ j, r j = if t = j then 1 else 0) :
    ∀ n, argmaxFrom r n = if t < n then t else 0 := by
  intro n
  induction n with
  | zero => simp [argmaxFrom]
  | succ n ih =>
    unfold argmaxFrom at ih ⊢
    rw [List.range_succ, List.foldl_append, ih]
    simp only [List.foldl_cons, List.foldl_nil]
    rcases Nat.lt_trichotomy t n with h1 | h1 | h1
    · have e1 : r n = 0 := by rw [hr n]; exact if_neg (by omega)
      have e2 : r t = 1 := by rw [hr t]; exact if_pos rfl
      simp only [if_pos h1]
      rw [e1, e2, if_neg (by norm_num), if_pos (by omega)]
    · subst h1
      simp only [if_neg (lt_irrefl t), if_pos (Nat.lt_succ_self t)]
      by_cases h0 : t = 0
      · subst h0
        rw [if_neg (lt_irrefl (r 0))]
      · have e1 : r t = 1 := by rw [hr t]; exact if_pos rfl
        have e2 : r 0 = 0 := by rw [hr 0]; exact if_neg h0
        rw [e1, e2, if_pos (by norm_num)]
    · have e1 : r n = 0 := by rw [hr n]; exact if_neg (by omega)
      have e2 : r 0 = 0 := by rw [hr 0]; exact if_neg (by omega)
      simp only [if_neg (by omega : ¬ t < n), if_neg (by omega : ¬ t < n + 1)]
      rw [e1, e2, if_neg (lt_irrefl (0 : ℝ))]

/-- Every element of a list of naturals is bounded by `npMax`. -/
theorem mem_le_npMax {x : ℕ} {l : List ℕ} (hx : x ∈ l) : x ≤ npMax l := by
  induction l with
  | nil => cases hx
  | cons a l ih =>
    unfold npMax at *
    rcases List.mem_cons.mp hx with h | h
    · subst h; exact le_max_left _ _
    · exact le_trans (ih h) (le_max_right _ _)

/-- C9.  One-hot round trip: for every nonempty list of labels,
`to_labels (to_one_hot labels W)` recovers every label, both when the one-hot
width `W` is the inferred `np.max(labels) + 1` and for every explicitly
supplied width exceeding `np.max(labels)`. -/
theorem to_one_hot_to_labels_round_trip (labels : List ℕ) (W : ℕ)
    ( _hne : labels ≠ [])
    (hW : W = npMax labels + 1 ∨ npMax labels < W) :
    ∀ i < labels.length, to_labels (to_one_hot labels W) i = labels.getD i 0 := by
  intro i hi
  have hmem : labels.getD i 0 ∈ labels := by
    rw [List.getD_eq_getElem labels 0 hi]
    exact List.getElem_mem hi
  have ht : labels.getD i 0 < W := by
    have := mem_le_npMax hmem
    rcases hW with h | h <;> omega
  have h := argmaxFrom_indicator (labels.getD i 0)
      (fun j => if labels.getD i 0 = j then 1 else 0) (fun j => rfl) W
  unfold to_labels to_one_hot
  simp only at h ⊢
  rw [h, if_pos ht]

/-- C9 witness: the notebook's own example labels, inferred width 6. -/
theorem to_one_hot_to_labels_round_trip_witness :
    to_labels (to_one_hot [0, 1, 0, 3, 5] 6) 3 = 3 := by
  have h := to_one_hot_to_labels_round_trip [0, 1, 0, 3, 5] 6 (by decide)
      (Or.inl (by decide)) 3 (by decide)
  exact h

/-- Entrywise `np.log`. -/
noncomputable def logN (x : NArr) : NArr :=
  ⟨x.rows, x.cols, fun i j => Real.log (x.entry i j)⟩

/-- numpy elementwise product `a * b` of two 2-D arrays with broadcasting
along the column axis (both operands in the notebook always carry one row per
example, so only the column axis can disagree).  Equal widths multiply
entrywise; a width-1 operand is stretched across the other's columns; any
other pair of widths raises `ValueError`, modelled as `none`. -/
def mulBroadcast (a b : NArr) : Option NArr :=
  if a.rows = b.rows then
    if a.cols = b.cols then
      some ⟨a.rows, a.cols, fun i j => a.entry i j * b.entry i j⟩
    else if a.cols = 1 then
      some ⟨a.rows, b.cols, fun i j => a.entry i 0 * b.entry i j⟩
    else if b.cols = 1 then
      some ⟨a.rows, a.cols, fun i j => a.entry i j * b.entry i 0⟩
    else none
  else none

/-- Negated row sums `-np.sum(x, axis=1)`. -/
noncomputable def negRowSums (x : NArr) : ℕ → ℝ :=
  fun i => -(∑ j ∈ Finset.range x.cols, x.entry i j)

/-- The return value of `_CrossEntropyWithLogits.forward(logits, targets)`:
`softmaxed = softmax(logits); one_hot = to_one_hot(targets);
 return -np.sum(one_hot * np.log(softmaxed), axis=1)`, where `to_one_hot`
infers its width as `np.max(targets) + 1`.  The result is `none` when the
product `one_hot * np.log(softmaxed)` raises on incompatible shapes. -/
noncomputable def forward (logits : NArr) (targets : List ℕ) : Option (ℕ → ℝ) :=
  (mulBroadcast (to_one_hot targets (npMax targets + 1))
      (logN (softmax logits))).map negRowSums

/-- Every in-range list lookup with a default is a member of the list. -/
theorem getD_mem (l : List ℕ) (i : ℕ) (hi : i < l.length) : l.getD i 0 ∈ l := by
  rw [List.getD_eq_getElem l 0 hi]
  exact List.getElem_mem hi

/-- A one-hot row, multiplied entrywise into any row and summed, selects that
row's entry at the hot index. -/
theorem sum_indicator_mul (n t : ℕ) (g : ℕ → ℝ) (ht : t < n) :
    (∑ j ∈ Finset.range n, (if t = j then (1 : ℝ) else 0) * g j) = g t := by
  rw [Finset.sum_congr rfl (fun j _ => by rw [ite_mul, one_mul, zero_mul]),
    Finset.sum_ite_eq]
  exact if_pos (Finset.mem_range.mpr ht)

/-- C2.  Cross-entropy-with-logits forward value: for logits of shape
`(n, C)` and `n` targets valued in `[0, C)` whose maximum is `C - 1`,
`forward` succeeds and its `i`-th entry is
`-log(softmax(logits)[i, targets[i]])`. -/
theorem forward_value (logits : NArr) (targets : List ℕ) (C : ℕ)
    (hC : logits.cols = C) (hrows : logits.rows = targets.length)
    (hvals : ∀ t ∈ targets, t < C) (hmax : npMax targets + 1 = C) :
    ∃ f, forward logits targets = some f ∧
      ∀ i < targets.length,
        f i = -Real.log ((softmax logits).entry i (targets.getD i 0)) := by
  subst hC
  unfold forward mulBroadcast
  rw [if_pos, if_pos]
  · rw [Option.map_some']
    refine ⟨_, rfl, fun i hi => ?_⟩
    unfold negRowSums
    simp only [to_one_hot, logN]
    rw [sum_indicator_mul _ _ _
      (Nat.lt_succ_of_le (mem_le_npMax (getD_mem targets i hi)))]
  · exact hmax
  · show (to_one_hot targets (npMax targets + 1)).rows = (logN (softmax logits)).rows
    simp [to_one_hot, logN, softmax, hrows]

/-- C2 witness: a single logit row `[0]` with target `0` and `C = 1`. -/
theorem forward_value_witness :
    ∃ f, forward ⟨1, 1, fun _ _ => 0⟩ [0] = some f ∧
      ∀ i < ([0] : List ℕ).length,
        f i = -Real.log
          ((softmax ⟨1, 1, fun _ _ => 0⟩).entry i (([0] : List ℕ).getD i 0)) :=
  forward_value ⟨1, 1, fun _ _ => 0⟩ [0] 1 rfl rfl (by decide) (by decide)

/-- A row-matched broadcast product exists exactly when the widths agree or
one operand has width 1. -/
theorem mulBroadcast_isSome (a b : NArr) (h : a.rows = b.rows) :
    (mulBroadcast a b).isSome = true ↔
      (a.cols = b.cols ∨ a.cols = 1 ∨ b.cols = 1) := by
  unfold mulBroadcast
  rw [if_pos h]
  split_ifs <;> simp [*]

/-- C5 counterexample: logits of shape `(1, 2)` with the all-zero target
vector `[0]`.  The inferred one-hot width `np.max(targets) + 1 = 1` differs
from `C = 2`, yet `forward` does not fail: numpy broadcasts the width-1
one-hot across both columns and returns a (wrong) vector. -/
theorem forward_shape_mismatch_counterexample :
    npMax [0] + 1 ≠ 2 ∧
      (forward ⟨1, 2, fun _ _ => 0⟩ [0]).isSome = true := by
  exact ⟨by decide, rfl⟩

/-- C5 (amended).  `forward` either returns a vector or fails on the shape
mismatch inside `one_hot * np.log(softmaxed)`, and it fails exactly when the
inferred one-hot width `np.max(targets) + 1` is broadcast-incompatible with
`C`: different from `C` while neither width is 1. -/
theorem forward_shape_behavior (logits : NArr) (targets : List ℕ) (C : ℕ)
    (hC : logits.cols = C) (hrows : logits.rows = targets.length) :
    (forward logits targets).isNone = true ↔
      (npMax targets + 1 ≠ C ∧ npMax targets + 1 ≠ 1 ∧ C ≠ 1) := by
  subst hC
  have h := mulBroadcast_isSome (to_one_hot targets (npMax targets + 1))
      (logN (softmax logits))
      (by simp [to_one_hot, logN, softmax, hrows])
  unfold forward
  rw [Option.isNone_iff_eq_none, Option.map_eq_none',
    ← Option.not_isSome_iff_eq_none, h]
  simp only [to_one_hot, logN, softmax]
  tauto

/-- C5 witness: shape `(1, 2)` logits with target `[2]`, whose inferred
one-hot width 3 is incompatible with `C = 2`, so `forward` fails. -/
theorem forward_shape_behavior_witness :
    (forward ⟨1, 2, fun _ _ => 0⟩ [2]).isNone = true ↔
      (npMax [2] + 1 ≠ 2 ∧ npMax [2] + 1 ≠ 1 ∧ 2 ≠ 1) :=
  forward_shape_behavior ⟨1, 2, fun _ _ => 0⟩ [2] 2 rfl rfl

/-- The mutable state of a `_CrossEntropyWithLogits` instance: the single
`cache` attribute, holding `(softmaxed, one_hot)` once set and nothing before
the first `forward` call. -/
structure CEWithLogits where
  cache : Option (NArr × NArr)

/-- The method `_CrossEntropyWithLogits.backward(upstream_gradient)` as a function of the
cached pair `(cache[0], cache[1]) = (softmaxed, one_hot)`:
`expanded_output = upstream_gradient.reshape(-1, 1);
 return (expanded_output * (cache[0] * np.expand_dims(np.sum(cache[1], axis=1), axis=1) - cache[1]),
         -expanded_output * np.log(cache[0]))`. -/
noncomputable def backward (cache : NArr × NArr) (upstream : ℕ → ℝ) :
    NArr × NArr :=
  (⟨cache.1.rows, cache.1.cols, fun i j =>
      upstream i *
        (cache.1.entry i j *
            (∑ k ∈ Finset.range cache.2.cols, cache.2.entry i k)
          - cache.2.entry i j)⟩,
   ⟨cache.1.rows, cache.1.cols, fun i j =>
      -(upstream i) * Real.log (cache.1.entry i j)⟩)

/-- The method `forward` as a state transformer on the instance.  The assignment
`self.cache = (softmaxed, one_hot)` is the method's only mutation; it reads
nothing from the previous state and runs before the (possibly raising) return
expression, so the cache is overwritten even on a shape mismatch. -/
noncomputable def forwardStep (_s : CEWithLogits) (logits : NArr)
    (targets : List ℕ) : CEWithLogits × Option (ℕ → ℝ) :=
  (⟨some (softmax logits, to_one_hot targets (npMax targets + 1))⟩,
   forward logits targets)

/-- The method `backward` on an instance; `none` models the `AttributeError` raised when
no `forward` has ever run. -/
noncomputable def backwardStep (s : CEWithLogits) (upstream : ℕ → ℝ) :
    Option (NArr × NArr) :=
  s.cache.map (fun c => backward c upstream)

/-- C3.  Backward contract: after `forward(logits, targets)` has cached
`(softmaxed, one_hot)`, `backward(upstream_gradient)` returns the pair
`(grad_logits, grad_one_hot)` where, given that every one-hot row sums to 1,
`grad_logits[i][j] = upstream[i] * (softmax(logits)[i][j] - one_hot[i][j])`
and `grad_one_hot[i][j] = -upstream[i] * log(softmax(logits)[i][j])`. -/
theorem backward_contract (s : CEWithLogits) (logits : NArr)
    (targets : List ℕ) (C : ℕ) (upstream : ℕ → ℝ)
    (hmax : npMax targets + 1 = C)
    (hsum : ∀ i < targets.length,
      (∑ j ∈ Finset.range C, (to_one_hot targets C).entry i j) = 1) :
    ∀ i < targets.length, ∀ j < C,
      ∃ g, backwardStep (forwardStep s logits targets).1 upstream = some g ∧
        g.1.entry i j
            = upstream i *
                ((softmax logits).entry i j - (to_one_hot targets C).entry i j) ∧
        g.2.entry i j = -(upstream i) * Real.log ((softmax logits).entry i j) := by
  subst hmax
  intro i hi j hj
  refine ⟨backward (softmax logits,
      to_one_hot targets (npMax targets + 1)) upstream, rfl, ?_, rfl⟩
  show upstream i *
      ((softmax logits).entry i j *
          (∑ k ∈ Finset.range (to_one_hot targets (npMax targets + 1)).cols,
            (to_one_hot targets (npMax targets + 1)).entry i k)
        - (to_one_hot targets (npMax targets + 1)).entry i j) = _
  rw [show (to_one_hot targets (npMax targets + 1)).cols = npMax targets + 1
      from rfl, hsum i hi, mul_one]

/-- C3 witness: one example, one class, unit upstream gradient. -/
theorem backward_contract_witness :
    ∃ g, backwardStep
        (forwardStep ⟨none⟩ ⟨1, 1, fun _ _ => 0⟩ [0]).1 (fun _ => 1) = some g ∧
      g.1.entry 0 0
          = (fun _ : ℕ => (1 : ℝ)) 0 *
              ((softmax ⟨1, 1, fun _ _ => 0⟩).entry 0 0
                - (to_one_hot [0] 1).entry 0 0) ∧
      g.2.entry 0 0
          = -((fun _ : ℕ => (1 : ℝ)) 0) *
              Real.log ((softmax ⟨1, 1, fun _ _ => 0⟩).entry 0 0) :=
  backward_contract ⟨none⟩ ⟨1, 1, fun _ _ => 0⟩ [0] 1 (fun _ => 1) (by decide)
    (fun i _ => by simp [to_one_hot]) 0 (by decide) 0 (by decide)

/-- C6.  The only state `forward` mutates is the `cache` attribute, fully
overwritten with `(softmax(logits), one_hot(targets))` computed from the
current arguments alone; hence `forward`'s return value and any following
`backward` result are independent of all earlier calls on the instance. -/
theorem forward_overwrites_cache (s t : CEWithLogits) (logits : NArr)
    (targets : List ℕ) (upstream : ℕ → ℝ) :
    (forwardStep s logits targets).1.cache
        = some (softmax logits, to_one_hot targets (npMax targets + 1)) ∧
      forwardStep s logits targets = forwardStep t logits targets ∧
      backwardStep (forwardStep s logits targets).1 upstream
          = backwardStep (forwardStep t logits targets).1 upstream :=
  ⟨rfl, rfl, rfl⟩

/-- The notebook's running-mean `Metric`: `self.cache` accumulates forward
values and `self.i` counts calls; `__init__` zeroes both. -/
@[ext]
structure Metric where
  cache : ℝ
  i : ℕ

/-- The constructor `Metric.__init__`: `self.cache = 0; self.i = 0`. -/
def Metric.init : Metric := ⟨0, 0⟩

/-- The method `Metric.__call__(logits, labels)`:
`self.i += 1; self.cache += self.forward(logits.detach(), labels)`.
`v` stands for the subclass's forward value on this batch. -/
def Metric.call (m : Metric) (v : ℝ) : Metric := ⟨m.cache + v, m.i + 1⟩

/-- The method `Metric.evaluate`: `result = self.cache / self.i; self.cache = 0;
self.i = 0; return result`, paired with the reset state.  With `i = 0` the
division raises `ZeroDivisionError`, modelled as `none`. -/
noncomputable def Metric.evaluate (m : Metric) : Option (ℝ × Metric) :=
  if m.i = 0 then none else some (m.cache / (m.i : ℝ), ⟨0, 0⟩)

/-- Feeding a list of forward values accumulates their sum and count. -/
theorem foldl_call (vs : List ℝ) (m : Metric) :
    vs.foldl Metric.call m = ⟨m.cache + vs.sum, m.i + vs.length⟩ := by
  induction vs generalizing m with
  | nil => simp
  | cons a l ih =>
    rw [List.foldl_cons, ih]
    simp only [Metric.call, List.sum_cons, List.length_cons]
    refine Metric.ext ?_ ?_ <;> simp <;> ring_nf

/-- C10.  Metric accumulation and reset: from a fresh (or just-reset) metric,
after `k ≥ 1` calls feeding values `vs`, `evaluate` returns the arithmetic
mean `cache / i` of those values and resets both fields to 0 (so successive
evaluation windows are independent); with no call since the last reset,
`evaluate` raises a division-by-zero error. -/
theorem metric_evaluate_mean (vs : List ℝ) (hne : vs ≠ []) :
    (vs.foldl Metric.call Metric.init).evaluate
        = some (vs.sum / (vs.length : ℝ), Metric.init) ∧
      Metric.init.evaluate = none := by
  constructor
  · rw [foldl_call]
    have hlen : vs.length ≠ 0 := by
      have := List.length_pos_of_ne_nil hne
      omega
    simp [Metric.evaluate, Metric.init, hlen]
  · rfl

/-- C10 witness: two batches with values 2 and 4 average to 3. -/
theorem metric_evaluate_mean_witness :
    (([2, 4] : List ℝ).foldl Metric.call Metric.init).evaluate
        = some (([2, 4] : List ℝ).sum / (([2, 4] : List ℝ).length : ℝ),
            Metric.init) ∧
      Metric.init.evaluate = none :=
  metric_evaluate_mean [2, 4] (List.cons_ne_nil 2 [4])

/-- An `os.scandir` entry: a path together with its `is_dir()` and
`is_file()` flags. -/
structure DirEntry where
  path : String
  isDir : Bool
  isFile : Bool

/-- The directory tree `create_csv` walks: the entries of the root directory,
and for each path the entries of that directory. -/
structure FileTree where
  rootEntries : List DirEntry
  subEntries : String → List DirEntry

/-- The scan `subfolders = [f.path for f in os.scandir(root) if f.is_dir()]`. -/
def subfoldersOf (fs : FileTree) : List String :=
  (fs.rootEntries.filter (fun e => e.isDir)).map (fun e => e.path)

/-- The `for i, path in enumerate(subfolders)` loop of `create_csv`, entered
with the enumeration counter at `k`: for each subfolder, one
`(file_path, label)` row per `is_file()` entry, labelled with the subfolder's
enumeration index.  Entries of a subfolder that are themselves directories
are filtered out and never visited, so deeper files contribute nothing. -/
def csvRows (fs : FileTree) : ℕ → List String → List (String × ℕ)
  | _, [] => []
  | k, d :: ds =>
    ((fs.subEntries d).filter (fun e => e.isFile)).map (fun f => (f.path, k))
      ++ csvRows fs (k + 1) ds

/-- A CSV as `df.to_csv(..., index=False)` writes it: the header names and
the data rows (here `(file_path, label)` pairs). -/
structure CSVFile where
  columns : List String
  rows : List (String × ℕ)

/-- The function `create_csv(root, out_name)`: a dataframe with columns
`['file_path', 'label']`, one appended row per file of each enumerated
subfolder of the root. -/
def create_csv (fs : FileTree) : CSVFile :=
  ⟨["file_path", "label"], csvRows fs 0 (subfoldersOf fs)⟩

/-- Membership in the loop's rows: exactly the files of the scanned
subfolders, labelled by enumeration position offset by the entry counter. -/
theorem csvRows_mem (fs : FileTree) :
    ∀ (ds : List String) (k : ℕ) (p : String) (l : ℕ),
      ((p, l) ∈ csvRows fs k ds ↔
        ∃ j, ∃ hj : j < ds.length, l = k + j ∧
          ∃ e ∈ fs.subEntries (ds.get ⟨j, hj⟩), e.isFile = true ∧ e.path = p) := by
  intro ds
  induction ds with
  | nil => simp [csvRows]
  | cons d ds ih =>
    intro k p l
    simp only [csvRows, List.mem_append, List.mem_map, List.mem_filter, ih]
    constructor
    · rintro (⟨e, ⟨he, hf⟩, hpe⟩ | ⟨j, hj, hl, e, he, hf, hp⟩)
      · rw [Prod.mk.injEq] at hpe
        exact ⟨0, Nat.succ_pos _, by omega, e, he, hf, hpe.1⟩
      · exact ⟨j + 1, Nat.succ_lt_succ hj, by omega, e, he, hf, hp⟩
    · rintro ⟨j, hj, hl, e, he, hf, hp⟩
      cases j with
      | zero => exact Or.inl ⟨e, ⟨he, hf⟩, by rw [Prod.mk.injEq]; exact ⟨hp, by omega⟩⟩
      | succ j =>
        exact Or.inr ⟨j, Nat.lt_of_succ_lt_succ hj, by omega, e, he, hf, hp⟩

/-- The loop appends one row per file of each scanned subfolder. -/
theorem csvRows_length (fs : FileTree) :
    ∀ (ds : List String) (k : ℕ),
      (csvRows fs k ds).length
        = (ds.map
            (fun d => ((fs.subEntries d).filter (fun e => e.isFile)).length)).sum := by
  intro ds
  induction ds with
  | nil => simp [csvRows]
  | cons d ds ih => intro k; simp [csvRows, ih]

/-- C7.  CSV schema: `create_csv` writes exactly the two columns `file_path`
and `label`; its rows are exactly the files found in the root's immediate
subdirectories (one row per file), each labelled with its subdirectory's
position in the enumeration of subfolders.  Files directly under the root
(not directories, so never scanned) and files nested deeper than one level
(inside entries filtered out by `is_file()`) contribute no row. -/
theorem create_csv_schema (fs : FileTree) :
    (create_csv fs).columns = ["file_path", "label"] ∧
      (∀ p l, ((p, l) ∈ (create_csv fs).rows ↔
        ∃ j, ∃ hj : j < (subfoldersOf fs).length, l = j ∧
          ∃ e ∈ fs.subEntries ((subfoldersOf fs).get ⟨j, hj⟩),
            e.isFile = true ∧ e.path = p)) ∧
      (create_csv fs).rows.length
        = ((subfoldersOf fs).map
            (fun d => ((fs.subEntries d).filter (fun e => e.isFile)).length)).sum := by
  refine ⟨rfl, fun p l => ?_, csvRows_length fs (subfoldersOf fs) 0⟩
  have h := csvRows_mem fs (subfoldersOf fs) 0 p l
  simpa using h

/-- A framework parameter: its tensor data and its `requires_grad` flag. -/
structure Param where
  data : ℝ
  requires_grad : Bool

/-- The transfer-learning classifier, reduced to its two parameter groups:
the pretrained feature extractor `self.features` and the new head
`self.regressor`. -/
structure VGGClassifier where
  features : List Param
  regressor : List Param

/-- The method `freeze`:
`for param in self.features.parameters(): param.requires_grad = False`. -/
def VGGClassifier.freeze (m : VGGClassifier) : VGGClassifier :=
  { m with
    features := m.features.map (fun p => { p with requires_grad := false }) }

/-- The method `unfreeze`: the same loop assigning `True`. -/
def VGGClassifier.unfreeze (m : VGGClassifier) : VGGClassifier :=
  { m with
    features := m.features.map (fun p => { p with requires_grad := true }) }

/-- C8.  Freezing touches only the pretrained feature extractor: `freeze`
clears `requires_grad` on every `features` parameter and changes nothing
else — the regressor is untouched (keeping its flags `True` when they were)
and no parameter's data changes; `unfreeze` sets the very same parameter
set's flags back, so `unfreeze` after `freeze` leaves every parameter's
`requires_grad` flag `True` again. -/
theorem freeze_unfreeze_frame (m : VGGClassifier)
    (hreg : ∀ p ∈ m.regressor, p.requires_grad = true) :
    (∀ p ∈ m.freeze.features, p.requires_grad = false) ∧
      m.freeze.regressor = m.regressor ∧
      (∀ p ∈ m.freeze.regressor, p.requires_grad = true) ∧
      m.freeze.features.map Param.data = m.features.map Param.data ∧
      m.freeze.unfreeze.features.map Param.data = m.features.map Param.data ∧
      m.freeze.unfreeze.regressor = m.regressor ∧
      (∀ p ∈ m.freeze.unfreeze.features ++ m.freeze.unfreeze.regressor,
        p.requires_grad = true) := by
  refine ⟨?_, rfl, hreg, ?_, ?_, rfl, ?_⟩
  · intro p hp
    rcases List.mem_map.mp hp with ⟨q, _, hq⟩
    rw [← hq]
  · simp [VGGClassifier.freeze, List.map_map, Function.comp]
  · simp [VGGClassifier.freeze, VGGClassifier.unfreeze, List.map_map,
      Function.comp]
  · intro p hp
    rcases List.mem_append.mp hp with h | h
    · rcases List.mem_map.mp h with ⟨q, _, hq⟩
      rw [← hq]
    · exact hreg p h

/-- C8 witness: one pretrained parameter and one head parameter, both
initially trainable. -/
theorem freeze_unfreeze_frame_witness :
    (∀ p ∈ (VGGClassifier.mk [⟨1, true⟩] [⟨2, true⟩]).freeze.features,
        p.requires_grad = false) ∧
      (VGGClassifier.mk [⟨1, true⟩] [⟨2, true⟩]).freeze.regressor
          = [⟨2, true⟩] ∧
      (∀ p ∈ (VGGClassifier.mk [⟨1, true⟩] [⟨2, true⟩]).freeze.regressor,
        p.requires_grad = true) ∧
      (VGGClassifier.mk [⟨1, true⟩] [⟨2, true⟩]).freeze.features.map Param.data
          = ([⟨1, true⟩] : List Param).map Param.data ∧
      (VGGClassifier.mk
            [⟨1, true⟩] [⟨2, true⟩]).freeze.unfreeze.features.map Param.data
          = ([⟨1, true⟩] : List Param).map Param.data ∧
      (VGGClassifier.mk [⟨1, true⟩] [⟨2, true⟩]).freeze.unfreeze.regressor
          = [⟨2, true⟩] ∧
      (∀ p ∈ (VGGClassifier.mk [⟨1, true⟩] [⟨2, true⟩]).freeze.unfreeze.features
            ++ (VGGClassifier.mk [⟨1, true⟩] [⟨2, true⟩]).freeze.unfreeze.regressor,
        p.requires_grad = true) :=
  freeze_unfreeze_frame (VGGClassifier.mk [⟨1, true⟩] [⟨2, true⟩])
    (by intro p hp; rw [List.mem_singleton] at hp; rw [hp])

end MLDS
